import Mathlib

/-!
Shallow embedding of `hetionet_client.py` (class `HetioNetDB`).

The Python program drives a Neo4j property graph plus a MongoDB cache.  The
embedding models the graph state that the Cypher statements manipulate:

* `Store.nodes` is the node table, in creation order.  Cypher `CREATE` always
  appends a fresh node, so the table is a list and two nodes may share an
  `id` property (there is no uniqueness constraint in the source; the only
  index created is a plain lookup index).
* `Store.edges` holds directed relationships; endpoints are positions into
  `Store.nodes`, mirroring Neo4j's node identity (two nodes with equal
  properties are still distinct endpoints).
* `Store.indexes` records the node kinds for which `CREATE INDEX IF NOT
  EXISTS ... ON (n.id)` has been issued.

File reading / TSV tokenization, connection management and printing are out
of scope; loaders take already-parsed records, and the values the code
prints are modeled as returned data where a claim depends on them.
-/

/-- A property-graph node as created by `load_nodes`:
`CREATE (n:{kind} {id: node.id, name: node.name})`. -/
structure Node where
  id : String
  name : String
  kind : String
deriving DecidableEq, Repr

/-- A directed relationship.  `src`/`tgt` are positions in the node table
(Neo4j node identity); `rel` is the relationship type string produced by
`_parse_metaedge`. -/
structure Edge where
  src : Nat
  tgt : Nat
  rel : String
deriving DecidableEq, Repr

/-- The graph state manipulated by the Cypher statements of the program. -/
structure Store where
  nodes : List Node
  edges : List Edge
  indexes : List String
deriving DecidableEq, Repr

/-- A raw edge record from the edges TSV after header normalization:
`{source, target, metaedge}`. -/
structure EdgeRec where
  source : String
  target : String
  metaedge : String
deriving DecidableEq, Repr

/-- Keep the first occurrence of each element, dropping later duplicates.
Used both for Python `dict` key order (grouping by kind / metaedge, keys in
first-occurrence order) and for Cypher `DISTINCT` aggregation. -/
def dedupKeepFirst {α : Type} [DecidableEq α] (l : List α) : List α :=
  l.foldl (fun acc a => if a ∈ acc then acc else acc ++ [a]) []

/-- `metaedge.replace('>', '').replace('<', '')` : drop all direction
markers. -/
def stripMarkers (s : String) : String :=
  ⟨s.data.filter (fun c => !(c == '>' || c == '<'))⟩

/-- Python `str.upper()` on the ASCII codes used for metaedges. -/
def upperStr (s : String) : String :=
  ⟨s.data.map Char.toUpper⟩

/-- `.replace('>', '_').replace('<', '_')` : each direction marker becomes an
underscore. -/
def replaceMarkersUnderscore (s : String) : String :=
  ⟨s.data.map (fun c => if c == '>' || c == '<' then '_' else c)⟩

/-- The fixed `mapping` table of `_parse_metaedge`. -/
def metaedgeTable : List (String × String) :=
  [("GiG", "INTERACTS"),
   ("GrG", "REGULATES"),
   ("GcG", "COVARIES"),
   ("CtD", "TREATS"),
   ("CpD", "PALLIATES"),
   ("CuG", "UPREGULATES"),
   ("CdG", "DOWNREGULATES"),
   ("CbG", "BINDS"),
   ("DaG", "ASSOCIATES"),
   ("DuG", "UPREGULATES"),
   ("DdG", "DOWNREGULATES"),
   ("DlA", "LOCALIZES_TO"),
   ("AuG", "UPREGULATES"),
   ("AdG", "DOWNREGULATES"),
   ("AeG", "EXPRESSES"),
   ("CRC", "RESEMBLES"),
   ("DRD", "RESEMBLES"),
   ("GRG", "REGULATES")]

/-- `_parse_metaedge`: strip direction markers, look the stripped code up in
the fixed table, and fall back to
`clean_metaedge.upper().replace('>', '_').replace('<', '_')`. -/
def parseMetaedge (metaedge : String) : String :=
  let clean := stripMarkers metaedge
  match metaedgeTable.lookup clean with
  | some v => v
  | none => replaceMarkersUnderscore (upperStr clean)

/-- The fixed kind list of `_create_indexes`. -/
def fixedIndexKinds : List String :=
  ["Gene", "Compound", "Disease", "Anatomy"]

/-- `CREATE INDEX IF NOT EXISTS FOR (n:{node_type}) ON (n.id)`: record the
kind once; a second call for the same kind is a no-op. -/
def createIndex (st : Store) (kind : String) : Store :=
  if kind ∈ st.indexes then st else { st with indexes := st.indexes ++ [kind] }

/-- The kinds of `nodes_by_kind`, in first-occurrence order (Python `dict`
iteration order). -/
def kindKeys (rows : List Node) : List String :=
  dedupKeepFirst (rows.map (fun r => r.kind))

/-- `nodes_by_kind`: for each kind key, the rows of that kind in input
order. -/
def nodeGroups (rows : List Node) : List (String × List Node) :=
  (kindKeys rows).map (fun k => (k, rows.filter (fun r => r.kind == k)))

/-- `load_nodes`: group the parsed rows by kind, run one
`UNWIND ... CREATE (n:{kind} {id, name})` per group (appending every
submitted record as a fresh node), then `_create_indexes` for the fixed four
kinds.  Each created node carries exactly the row's id, name and kind. -/
def load_nodes (st : Store) (rows : List Node) : Store :=
  let st1 := (nodeGroups rows).foldl
    (fun s g => { s with nodes := s.nodes ++ g.2 }) st
  fixedIndexKinds.foldl createIndex st1

/-- `MATCH (n {id: i})` with no label: the positions of every node whose
`id` property is `i`. -/
def matchIdxs (nodes : List Node) (i : String) : List Nat :=
  (List.range nodes.length).filter
    (fun k => (nodes.get? k).any (fun n => n.id == i))

/-- Edges created for one `(source, target)` pair by
`MATCH (source {id}) MATCH (target {id}) CREATE (source)-[:rel]->(target)`:
one relationship per combination of matching endpoints; zero when either id
matches no node (zero-match semantics, no error). -/
def pairEdges (nodes : List Node) (rel : String) (p : String × String) : List Edge :=
  (matchIdxs nodes p.1).flatMap
    (fun i => (matchIdxs nodes p.2).map (fun j => ⟨i, j, rel⟩))

/-- One `UNWIND $edges ... CREATE` statement for a metaedge group. -/
def insertEdgesGroup (st : Store) (rel : String) (pairs : List (String × String)) : Store :=
  { st with edges := st.edges ++ pairs.flatMap (pairEdges st.nodes rel) }

/-- The metaedge keys of `edges_by_type`, in first-occurrence order. -/
def metaKeys (rows : List EdgeRec) : List String :=
  dedupKeepFirst (rows.map (fun r => r.metaedge))

/-- `edges_by_type`: per metaedge code, its `(source, target)` pairs in input
order. -/
def edgeGroups (rows : List EdgeRec) : List (String × List (String × String)) :=
  (metaKeys rows).map
    (fun m => (m, (rows.filter (fun r => r.metaedge == m)).map (fun r => (r.source, r.target))))

/-- `load_edges`: group rows by raw metaedge code, canonicalize each code
once, and run one pattern-match insert per group.  The second component is
what the loop reports: `Created {len(edges)} {rel_type} relationships`, i.e.
the submitted pair count per group, not the materialized count. -/
def load_edges (st : Store) (rows : List EdgeRec) : Store × List (String × Nat) :=
  (edgeGroups rows).foldl
    (fun acc g => (insertEdgesGroup acc.1 (parseMetaedge g.1) g.2,
                   acc.2 ++ [(parseMetaedge g.1, g.2.length)]))
    (st, [])

/-- Number of edges a single edge record materializes against a node table:
the product of the endpoint match counts. -/
def materializedFor (nodes : List Node) (r : EdgeRec) : Nat :=
  (matchIdxs nodes r.source).length * (matchIdxs nodes r.target).length

/-- Does an edge record have an endpoint id matching no loaded node?  (The
spec's "missing endpoint" condition, stated over the embedded match sets.) -/
def endpointMissing (nodes : List Node) (r : EdgeRec) : Bool :=
  (matchIdxs nodes r.source).isEmpty || (matchIdxs nodes r.target).isEmpty

/-- One entry of the `drugs` list of a Query 1 result:
`{id: c.id, name: c.name, type: type(r)}`. -/
structure DrugEntry where
  id : String
  name : String
  type : String
deriving DecidableEq, Repr

/-- One entry of the `genes` list of a Query 1 result:
`{id: g.id, name: g.name, relationship: type(gr)}`. -/
structure GeneEntry where
  id : String
  name : String
  relationship : String
deriving DecidableEq, Repr

/-- One entry of the `locations` list of a Query 1 result:
`{id: a.id, name: a.name}`. -/
structure LocEntry where
  id : String
  name : String
deriving DecidableEq, Repr

/-- The base fields of a Query 1 / cache document.  The ephemeral
`query_time_ms` and `data_source` fields are attached at read time from the
wall clock and are not part of the stored or compared content, so they are
not modeled. -/
structure DiseaseInfo where
  _id : String
  name : String
  drugs : List DrugEntry
  genes : List GeneEntry
  locations : List LocEntry
deriving DecidableEq, Repr

/-- Node at position `i`, if in range. -/
def nodeAt (st : Store) (i : Nat) : Option Node :=
  st.nodes.get? i

/-- Does the node at position `i` carry kind `k`?  (False when out of
range.) -/
def kindAt (st : Store) (i : Nat) (k : String) : Bool :=
  (nodeAt st i).any (fun n => n.kind == k)

/-- `id` property of the node at position `i` (`""` when out of range; edge
endpoints produced by the loaders are always in range). -/
def idAt (st : Store) (i : Nat) : String :=
  ((nodeAt st i).map (fun n => n.id)).getD ""

/-- `name` property of the node at position `i`. -/
def nameAt (st : Store) (i : Nat) : String :=
  ((nodeAt st i).map (fun n => n.name)).getD ""

/-- Positions of nodes matching `MATCH (n:{kind} {id: i})`. -/
def idxsOf (st : Store) (kind i : String) : List Nat :=
  (List.range st.nodes.length).filter
    (fun k => (st.nodes.get? k).any (fun n => n.kind == kind && n.id == i))

/-- Matches of `OPTIONAL MATCH (c:Compound)-[r:TREATS|PALLIATES]->(d)` for
the disease node at `dIdx`, as the collected `{id, name, type}` maps (in
edge-list order, before `DISTINCT`). -/
def drugsOf (st : Store) (dIdx : Nat) : List DrugEntry :=
  st.edges.filterMap (fun e =>
    if e.tgt == dIdx && (e.rel == "TREATS" || e.rel == "PALLIATES") then
      match nodeAt st e.src with
      | some c => if c.kind == "Compound" then some ⟨c.id, c.name, e.rel⟩ else none
      | none => none
    else none)

/-- Matches of
`OPTIONAL MATCH (d)-[gr:ASSOCIATES|UPREGULATES|DOWNREGULATES]->(g:Gene)`. -/
def genesOf (st : Store) (dIdx : Nat) : List GeneEntry :=
  st.edges.filterMap (fun e =>
    if e.src == dIdx &&
       (e.rel == "ASSOCIATES" || e.rel == "UPREGULATES" || e.rel == "DOWNREGULATES") then
      match nodeAt st e.tgt with
      | some g => if g.kind == "Gene" then some ⟨g.id, g.name, e.rel⟩ else none
      | none => none
    else none)

/-- Matches of `OPTIONAL MATCH (d)-[:LOCALIZES_TO]->(a:Anatomy)`. -/
def locationsOf (st : Store) (dIdx : Nat) : List LocEntry :=
  st.edges.filterMap (fun e =>
    if e.src == dIdx && e.rel == "LOCALIZES_TO" then
      match nodeAt st e.tgt with
      | some a => if a.kind == "Anatomy" then some ⟨a.id, a.name⟩ else none
      | none => none
    else none)

/-- The Cypher block shared by `_get_disease_info_from_neo4j` and the direct
branch of `query1_disease_info`, followed by `.single()` and the Python-side
null filtering.

`MATCH (d:Disease {id: $diseaseId})` binds each matching disease node; the
`RETURN` aggregates with grouping key `d.name`, so `.single()` sees one row
per distinct name and returns the first (or no row at all when the id
matches no disease node, modeled as `none`).  The three `OPTIONAL MATCH`
cross products collapse under `collect(DISTINCT ...)`; the unmatched-branch
null maps are removed by the comprehensions `if d['id'] is not None`, so the
collected lists reduce to the deduplicated per-branch matches of the
name group. -/
def getDiseaseInfo (st : Store) (did : String) : Option DiseaseInfo :=
  match idxsOf st "Disease" did with
  | [] => none
  | i :: rest =>
    let group := (i :: rest).filter (fun j => nameAt st j == nameAt st i)
    some { _id := did
           name := nameAt st i
           drugs := dedupKeepFirst (group.flatMap (drugsOf st))
           genes := dedupKeepFirst (group.flatMap (genesOf st))
           locations := dedupKeepFirst (group.flatMap (locationsOf st)) }

/-- `replace_one({'_id': k}, v, upsert=True)` on the diseases collection:
replace the first (and, by `_id` uniqueness, only) document with that key,
or append it. -/
def upsert (cache : List (String × DiseaseInfo)) (k : String) (v : DiseaseInfo) :
    List (String × DiseaseInfo) :=
  match cache with
  | [] => [(k, v)]
  | (k1, v1) :: rest =>
    if k1 == k then (k, v) :: rest else (k1, v1) :: upsert rest k v

/-- The disease nodes enumerated by
`MATCH (d:Disease) RETURN d.id as id, d.name as name` (node-table order). -/
def diseaseNodes (st : Store) : List Node :=
  st.nodes.filter (fun n => n.kind == "Disease")

/-- `build_mongo_cache`: for every disease node, recompute its info from the
graph and upsert it by `_id`.  `_get_disease_info_from_neo4j` cannot see an
empty result here because the id comes from a just-matched disease node, so
the `none` branch is unreachable and modeled as a skip. -/
def build_mongo_cache (st : Store) : List (String × DiseaseInfo) :=
  (diseaseNodes st).foldl
    (fun cache n =>
      match getDiseaseInfo st n.id with
      | some info => upsert cache n.id info
      | none => cache)
    []

/-- Cache branch of `query1_disease_info` (`use_cache=True`):
`find_one({'_id': disease_id})`; `None` (here `none`) means "not found". -/
def query1_cached (cache : List (String × DiseaseInfo)) (did : String) :
    Option DiseaseInfo :=
  List.lookup did cache

/-- Direct branch of `query1_disease_info` (`use_cache=False`).  When the id
matches no disease node the Cypher result has no rows, `.single()` yields no
record, and `neo_result['disease_name']` raises — the branch fails instead
of returning a not-found value, which the embedding records as an error. -/
def query1_direct (st : Store) (did : String) : Except String DiseaseInfo :=
  match getDiseaseInfo st did with
  | some info => Except.ok info
  | none => Except.error "NoneType is not subscriptable"

/-- One mechanism map collected by Query 2:
`{gene, compound_effect, anatomy, anatomy_effect}`. -/
structure Mechanism where
  gene : String
  compound_effect : String
  anatomy : String
  anatomy_effect : String
deriving DecidableEq, Repr

/-- One element of the `treatments` list of a Query 2 result. -/
structure Treatment where
  compound_id : String
  compound_name : String
  mechanisms : List Mechanism
deriving DecidableEq, Repr

/-- The dictionary returned by `query2_find_treatments` (without the
ephemeral `query_time_ms`). -/
structure Query2Result where
  disease_id : String
  potential_treatments_count : Nat
  treatments : List Treatment
deriving DecidableEq, Repr

/-- Is `r` one of the two regulation relationship types
(`cr:UPREGULATES|DOWNREGULATES`)? -/
def isReg (r : String) : Bool :=
  r == "UPREGULATES" || r == "DOWNREGULATES"

/-- Is there an edge from position `s` to position `t` whose type is in
`rels`?  Models the pattern predicate `(c)-[:TREATS|PALLIATES]->(d)`. -/
def hasRelEdge (st : Store) (s t : Nat) (rels : List String) : Bool :=
  st.edges.any (fun e => e.src == s && e.tgt == t && rels.contains e.rel)

/-- Query 2's full `WHERE` clause, with Cypher operator precedence: `AND`
binds tighter than `OR`, so

```
WHERE (type(cr)='UPREGULATES' AND type(ar)='DOWNREGULATES')
   OR (type(cr)='DOWNREGULATES' AND type(ar)='UPREGULATES')
  AND NOT (c)-[:TREATS|PALLIATES]->(d)
```

parses as `P1 OR (P2 AND NOT treats)`: the existing-treatment exclusion
guards only the second (compound-downregulates) disjunct. -/
def q2Where (st : Store) (cIdx dIdx : Nat) (cr ar : String) : Bool :=
  (cr == "UPREGULATES" && ar == "DOWNREGULATES")
  || ((cr == "DOWNREGULATES" && ar == "UPREGULATES")
      && !(hasRelEdge st cIdx dIdx ["TREATS", "PALLIATES"]))

/-- Matches of `(d)-[:LOCALIZES_TO]->(a:Anatomy)` from the disease node at
`dIdx`: the anatomy positions. -/
def localizesTargets (st : Store) (dIdx : Nat) : List Nat :=
  st.edges.filterMap (fun e =>
    if e.src == dIdx && e.rel == "LOCALIZES_TO" && kindAt st e.tgt "Anatomy" then
      some e.tgt
    else none)

/-- Matches of `MATCH (c:Compound)-[cr:UPREGULATES|DOWNREGULATES]->(g:Gene)`
over the whole store: `(compound position, gene position, type(cr))`. -/
def compoundGeneRegs (st : Store) : List (Nat × Nat × String) :=
  st.edges.filterMap (fun e =>
    if isReg e.rel && kindAt st e.src "Compound" && kindAt st e.tgt "Gene" then
      some (e.src, e.tgt, e.rel)
    else none)

/-- Matches of `MATCH (a)-[ar:UPREGULATES|DOWNREGULATES]->(g)` for fixed
anatomy and gene positions: the regulation types. -/
def anatomyGeneRegs (st : Store) (aIdx gIdx : Nat) : List String :=
  st.edges.filterMap (fun e =>
    if e.src == aIdx && e.tgt == gIdx && isReg e.rel then some e.rel else none)

/-- One row of Query 2's match before aggregation: the bound positions of
disease, anatomy, compound and gene, plus the two regulation types. -/
structure Q2Row where
  d : Nat
  a : Nat
  c : Nat
  g : Nat
  cr : String
  ar : String
deriving DecidableEq, Repr

/-- The rows produced by Query 2's `MATCH`/`WHERE` block: disease node with
the queried id, a `LOCALIZES_TO` anatomy, a compound-gene regulation and an
anatomy-gene regulation on the same gene, filtered by the `WHERE` clause
`q2Where` (which, by Cypher precedence, applies the existing-treatment
exclusion only to the compound-downregulates disjunct). -/
def q2Rows (st : Store) (did : String) : List Q2Row :=
  (idxsOf st "Disease" did).flatMap (fun dIdx =>
    (localizesTargets st dIdx).flatMap (fun aIdx =>
      (compoundGeneRegs st).flatMap (fun cg =>
        (anatomyGeneRegs st aIdx cg.2.1).filterMap (fun ar =>
          if q2Where st cg.1 dIdx cg.2.2 ar then
            some ⟨dIdx, aIdx, cg.1, cg.2.1, cg.2.2, ar⟩
          else none))))

/-- The mechanism map a row contributes:
`{gene: g.name, compound_effect: type(cr), anatomy: a.name,
anatomy_effect: type(ar)}`. -/
def mechOf (st : Store) (r : Q2Row) : Mechanism :=
  ⟨nameAt st r.g, r.cr, nameAt st r.a, r.ar⟩

/-- Lexicographic-by-code-point comparison used only to model
`ORDER BY compound_name` (Neo4j leaves the tie order unspecified; so does
this model's choice of insertion sort). -/
def strLeAux : List Char → List Char → Bool
  | [], _ => true
  | _ :: _, [] => false
  | a :: as, b :: bs => if a == b then strLeAux as bs else decide (a < b)

/-- String order for `ORDER BY compound_name`. -/
def strLe (a b : String) : Bool :=
  strLeAux a.data b.data

/-- Insert into a sorted-by-name list. -/
def insertByName (t : Treatment) : List Treatment → List Treatment
  | [] => [t]
  | u :: l => if strLe t.compound_name u.compound_name
              then t :: u :: l
              else u :: insertByName t l

/-- `ORDER BY compound_name` (ascending). -/
def sortByName : List Treatment → List Treatment
  | [] => []
  | t :: l => insertByName t (sortByName l)

/-- `query2_find_treatments`: aggregate the rows with grouping keys
`c.id, c.name`, collect the distinct mechanism maps per group, sort by
compound name, and return the result dictionary (`potential_treatments_count
= len(treatments)`; `query_time_ms` is ephemeral and unmodeled). -/
def query2_find_treatments (st : Store) (did : String) : Query2Result :=
  let rows := q2Rows st did
  let keys := dedupKeepFirst (rows.map (fun r => (idAt st r.c, nameAt st r.c)))
  let treatments := keys.map (fun k =>
    { compound_id := k.1
      compound_name := k.2
      mechanisms := dedupKeepFirst
        ((rows.filter (fun r => idAt st r.c == k.1 && nameAt st r.c == k.2)).map
          (mechOf st)) })
  let sorted := sortByName treatments
  ⟨did, sorted.length, sorted⟩

/-- Is there a `TREATS` or `PALLIATES` edge from a compound-id-`cid` node to
a Disease-labeled node with id `did`?  (Property-level reading of
`(c)-[:TREATS|PALLIATES]->(d)`.) -/
def hasTreatsOrPalliatesById (st : Store) (cid did : String) : Bool :=
  st.edges.any (fun e =>
    (e.rel == "TREATS" || e.rel == "PALLIATES") &&
    ((nodeAt st e.src).any (fun n => n.id == cid)) &&
    ((nodeAt st e.tgt).any (fun n => n.kind == "Disease" && n.id == did)))

/-- Node records of the walkthrough scenario: one disease, gene, compound
and anatomy. -/
def exampleNodes1 : List Node :=
  [⟨"D1", "Flu", "Disease"⟩, ⟨"G1", "GeneA", "Gene"⟩,
   ⟨"C1", "DrugA", "Compound"⟩, ⟨"A1", "Lung", "Anatomy"⟩]

/-- Store after loading the walkthrough scenario: `C1` treats `D1`, `D1`
associates with `G1` and localizes to `A1`. -/
def exampleStore1 : Store :=
  (load_edges (load_nodes ⟨[], [], []⟩ exampleNodes1)
    [⟨"C1", "D1", "CtD"⟩, ⟨"D1", "G1", "DaG"⟩, ⟨"D1", "A1", "DlA"⟩]).1

/-- The inference scenario: additionally, compound `C2` upregulates `G1`
while anatomy `A1` downregulates it, and `C2` has no treats/palliates edge
to `D1`. -/
def exampleStore2 : Store :=
  (load_edges (load_nodes ⟨[], [], []⟩ (exampleNodes1 ++ [⟨"C2", "DrugB", "Compound"⟩]))
    [⟨"C1", "D1", "CtD"⟩, ⟨"D1", "G1", "DaG"⟩, ⟨"D1", "A1", "DlA"⟩,
     ⟨"C2", "G1", "CuG"⟩, ⟨"A1", "G1", "AdG"⟩]).1

/-- A two-node store with distinct ids, for edge-accounting witnesses. -/
def exampleStore3 : Store :=
  ⟨[⟨"A", "nodeA", "Gene"⟩, ⟨"B", "nodeB", "Gene"⟩], [], []⟩

/-- Two edge records against `exampleStore3`: the first has both endpoints,
the second's target id `C` matches no node. -/
def exampleEdgeRows3 : List EdgeRec :=
  [⟨"A", "B", "GiG"⟩, ⟨"A", "C", "GiG"⟩]

/-- A store whose node table holds two nodes sharing the id `A` (reachable
by loading duplicate-id records, as Cypher `CREATE` never deduplicates). -/
def dupIdStore : Store :=
  load_nodes ⟨[], [], []⟩
    [⟨"A", "first", "Gene"⟩, ⟨"A", "second", "Gene"⟩, ⟨"B", "b", "Gene"⟩]

/-- Store exercising the `WHERE` precedence on an existing treatment: `C1`
treats `D1` and also upregulates `G1`, which `D1`'s anatomy `A1`
downregulates. -/
def precedenceBugStore : Store :=
  (load_edges (load_nodes ⟨[], [], []⟩ exampleNodes1)
    [⟨"C1", "D1", "CtD"⟩, ⟨"D1", "A1", "DlA"⟩,
     ⟨"C1", "G1", "CuG"⟩, ⟨"A1", "G1", "AdG"⟩]).1

/-! ### Helper lemmas: first-occurrence deduplication -/

theorem mem_foldl_dedup {α : Type} [DecidableEq α] (l : List α) :
    ∀ (acc : List α) (x : α),
      (x ∈ l.foldl (fun acc a => if a ∈ acc then acc else acc ++ [a]) acc)
        ↔ x ∈ acc ∨ x ∈ l := by
  induction l with
  | nil => simp
  | cons a l ih =>
    intro acc x
    simp only [List.foldl_cons]
    rw [ih]
    by_cases h : a ∈ acc
    · simp only [if_pos h, List.mem_cons]
      constructor
      · rintro (hx | hx)
        · exact Or.inl hx
        · exact Or.inr (Or.inr hx)
      · rintro (hx | rfl | hx)
        · exact Or.inl hx
        · exact Or.inl h
        · exact Or.inr hx
    · simp only [if_neg h, List.mem_append, List.mem_singleton, List.mem_cons]
      tauto

theorem nodup_foldl_dedup {α : Type} [DecidableEq α] (l : List α) :
    ∀ (acc : List α), acc.Nodup →
      (l.foldl (fun acc a => if a ∈ acc then acc else acc ++ [a]) acc).Nodup := by
  induction l with
  | nil => intro acc h; simpa using h
  | cons a l ih =>
    intro acc hacc
    simp only [List.foldl_cons]
    by_cases h : a ∈ acc
    · rw [if_pos h]; exact ih acc hacc
    · rw [if_neg h]
      refine ih _ ?_
      rw [List.nodup_append]
      exact ⟨hacc, List.nodup_singleton a, by simpa using h⟩

theorem mem_dedupKeepFirst {α : Type} [DecidableEq α] {l : List α} {x : α} :
    x ∈ dedupKeepFirst l ↔ x ∈ l := by
  unfold dedupKeepFirst
  rw [mem_foldl_dedup]
  simp

theorem nodup_dedupKeepFirst {α : Type} [DecidableEq α] (l : List α) :
    (dedupKeepFirst l).Nodup :=
  nodup_foldl_dedup l [] List.nodup_nil

/-! ### Helper lemmas: sums over partition by key -/

theorem sum_map_addFn {α : Type} (K : List α) (g h : α → Nat) :
    (K.map (fun k => g k + h k)).sum = (K.map g).sum + (K.map h).sum := by
  induction K with
  | nil => simp
  | cons a K ih => simp [ih]; omega

theorem sum_map_ite_eq {α : Type} [DecidableEq α] (K : List α) (b : α) (c : Nat)
    (hb : b ∈ K) (hn : K.Nodup) :
    (K.map (fun k => if k = b then c else 0)).sum = c := by
  induction K with
  | nil => cases hb
  | cons a K ih =>
    rcases List.mem_cons.mp hb with rfl | hb2
    · have hz : (K.map (fun k => if k = b then c else 0)).sum = 0 := by
        apply List.sum_eq_zero
        intro x hx
        rcases List.mem_map.mp hx with ⟨k, hk, rfl⟩
        exact if_neg (fun h => (List.nodup_cons.mp hn).1 (by rw [← h]; exact hk))
      simp [hz]
    · have hne : a ≠ b := fun h => (List.nodup_cons.mp hn).1 (h ▸ hb2)
      simp only [List.map_cons, List.sum_cons, if_neg hne,
        ih hb2 (List.nodup_cons.mp hn).2, Nat.zero_add]

theorem sum_over_keys {α β : Type} [DecidableEq β] (key : α → β) (f : α → Nat) :
    ∀ (l : List α) (K : List β), K.Nodup → (∀ a ∈ l, key a ∈ K) →
      (K.map (fun k => ((l.filter (fun a => key a == k)).map f).sum)).sum
        = (l.map f).sum := by
  intro l
  induction l with
  | nil =>
    intro K _ _
    simp only [List.filter_nil, List.map_nil, List.sum_nil]
    exact List.sum_eq_zero (by intro x hx; rcases List.mem_map.mp hx with ⟨k, _, rfl⟩; rfl)
  | cons a l ih =>
    intro K hK hcov
    have hmem : key a ∈ K := hcov a (List.mem_cons_self a l)
    have hsplit : ∀ k : β, ((List.filter (fun x => key x == k) (a :: l)).map f).sum
        = (if k = key a then f a else 0)
          + ((l.filter (fun x => key x == k)).map f).sum := by
      intro k
      by_cases h : key a = k
      · rw [List.filter_cons, if_pos (by simpa using h), List.map_cons, List.sum_cons,
          if_pos h.symm]
      · rw [List.filter_cons, if_neg (by simpa using h), if_neg (fun hh => h hh.symm),
          Nat.zero_add]
    calc (K.map (fun k => ((List.filter (fun x => key x == k) (a :: l)).map f).sum)).sum
        = (K.map (fun k => (if k = key a then f a else 0)
            + ((l.filter (fun x => key x == k)).map f).sum)).sum := by
          congr 1
          exact List.map_congr_left (fun k _ => hsplit k)
      _ = (K.map (fun k => if k = key a then f a else 0)).sum
            + (K.map (fun k => ((l.filter (fun x => key x == k)).map f).sum)).sum :=
          sum_map_addFn K _ _
      _ = f a + (l.map f).sum := by
          rw [sum_map_ite_eq K (key a) (f a) hmem hK,
            ih K hK (fun x hx => hcov x (List.mem_cons_of_mem a hx))]
      _ = ((a :: l).map f).sum := by simp

theorem countP_eq_sum_map {α : Type} (p : α → Bool) (l : List α) :
    l.countP p = (l.map (fun a => if p a then 1 else 0)).sum := by
  induction l with
  | nil => simp
  | cons a l ih => rw [List.countP_cons, ih]; simp [Nat.add_comm]

theorem countP_flatMap_groups {α β : Type} [DecidableEq β]
    (key : α → β) (p : α → Bool) (l : List α) (K : List β)
    (hK : K.Nodup) (hcov : ∀ a ∈ l, key a ∈ K) :
    (K.flatMap (fun k => l.filter (fun a => key a == k))).countP p = l.countP p := by
  rw [List.countP_flatMap]
  have h1 : (K.map (List.countP p ∘ fun k => l.filter (fun a => key a == k)))
      = K.map (fun k => ((l.filter (fun a => key a == k)).map
          (fun a => if p a then 1 else 0)).sum) := by
    apply List.map_congr_left
    intro k _
    exact countP_eq_sum_map p _
  rw [h1, sum_over_keys key (fun a => if p a then 1 else 0) l K hK hcov,
    ← countP_eq_sum_map]

/-! ### Structural lemmas for `load_nodes` -/

theorem foldl_groups_spec (gs : List (String × List Node)) :
    ∀ st : Store,
      gs.foldl (fun s g => { s with nodes := s.nodes ++ g.2 }) st
        = { st with nodes := st.nodes ++ gs.flatMap Prod.snd } := by
  induction gs with
  | nil => intro st; simp
  | cons g gs ih =>
    intro st
    rw [List.foldl_cons, ih]
    simp [List.append_assoc]

theorem createIndex_nodes (st : Store) (k : String) :
    (createIndex st k).nodes = st.nodes := by
  unfold createIndex; split <;> rfl

theorem createIndex_edges (st : Store) (k : String) :
    (createIndex st k).edges = st.edges := by
  unfold createIndex; split <;> rfl

theorem mem_createIndex_indexes (st : Store) (a k : String) :
    k ∈ (createIndex st a).indexes ↔ k ∈ st.indexes ∨ k = a := by
  unfold createIndex
  split
  · rename_i h
    constructor
    · exact Or.inl
    · rintro (hk | rfl)
      · exact hk
      · exact h
  · simp

theorem foldl_createIndex_nodes (ks : List String) :
    ∀ st : Store, (ks.foldl createIndex st).nodes = st.nodes := by
  induction ks with
  | nil => intro st; rfl
  | cons a ks ih => intro st; rw [List.foldl_cons, ih, createIndex_nodes]

theorem foldl_createIndex_edges (ks : List String) :
    ∀ st : Store, (ks.foldl createIndex st).edges = st.edges := by
  induction ks with
  | nil => intro st; rfl
  | cons a ks ih => intro st; rw [List.foldl_cons, ih, createIndex_edges]

theorem mem_foldl_createIndex (ks : List String) :
    ∀ (st : Store) (k : String),
      k ∈ (ks.foldl createIndex st).indexes ↔ k ∈ st.indexes ∨ k ∈ ks := by
  induction ks with
  | nil => intro st k; simp
  | cons a ks ih =>
    intro st k
    rw [List.foldl_cons, ih, mem_createIndex_indexes]
    simp only [List.mem_cons]
    tauto

theorem load_nodes_nodes (st : Store) (rows : List Node) :
    (load_nodes st rows).nodes
      = st.nodes ++ (kindKeys rows).flatMap (fun k => rows.filter (fun r => r.kind == k)) := by
  unfold load_nodes
  rw [foldl_createIndex_nodes, foldl_groups_spec]
  simp only [nodeGroups]
  rw [List.flatMap_map]

theorem load_nodes_edges (st : Store) (rows : List Node) :
    (load_nodes st rows).edges = st.edges := by
  unfold load_nodes
  rw [foldl_createIndex_edges, foldl_groups_spec]

theorem load_nodes_indexes_mem (st : Store) (rows : List Node) (k : String) :
    k ∈ (load_nodes st rows).indexes ↔ k ∈ st.indexes ∨ k ∈ fixedIndexKinds := by
  unfold load_nodes
  rw [mem_foldl_createIndex, foldl_groups_spec]

theorem load_nodes_countP (st : Store) (rows : List Node) (p : Node → Bool) :
    (load_nodes st rows).nodes.countP p = st.nodes.countP p + rows.countP p := by
  rw [load_nodes_nodes, List.countP_append]
  congr 1
  apply countP_flatMap_groups (fun r => r.kind) p rows (kindKeys rows)
    (nodup_dedupKeepFirst _)
  intro a ha
  unfold kindKeys
  rw [mem_dedupKeepFirst]
  exact List.mem_map.mpr ⟨a, ha, rfl⟩

/-! ### Structural lemmas for `load_edges` and edge accounting -/

theorem foldl_insertEdges_spec (gs : List (String × List (String × String))) :
    ∀ (s : Store) (rep : List (String × Nat)),
      gs.foldl (fun acc g => (insertEdgesGroup acc.1 (parseMetaedge g.1) g.2,
                              acc.2 ++ [(parseMetaedge g.1, g.2.length)])) (s, rep)
        = ({ s with edges := s.edges
               ++ gs.flatMap (fun g => g.2.flatMap (pairEdges s.nodes (parseMetaedge g.1))) },
           rep ++ gs.map (fun g => (parseMetaedge g.1, g.2.length))) := by
  induction gs with
  | nil => intro s rep; simp
  | cons g gs ih =>
    intro s rep
    rw [List.foldl_cons, ih]
    simp [insertEdgesGroup, List.append_assoc]

theorem load_edges_fst (st : Store) (rows : List EdgeRec) :
    (load_edges st rows).1
      = { st with
            edges := st.edges ++ (edgeGroups rows).flatMap
              (fun g => g.2.flatMap (pairEdges st.nodes (parseMetaedge g.1))) } := by
  unfold load_edges
  rw [foldl_insertEdges_spec]

theorem load_edges_snd (st : Store) (rows : List EdgeRec) :
    (load_edges st rows).2
      = (edgeGroups rows).map (fun g => (parseMetaedge g.1, g.2.length)) := by
  unfold load_edges
  rw [foldl_insertEdges_spec]
  simp

theorem sum_map_const_nat {α : Type} (l : List α) (c : Nat) :
    (l.map (fun _ => c)).sum = l.length * c := by
  induction l with
  | nil => simp
  | cons a l ih => simp [ih, Nat.succ_mul]; omega

theorem pairEdges_length (nodes : List Node) (rel : String) (p : String × String) :
    (pairEdges nodes rel p).length
      = (matchIdxs nodes p.1).length * (matchIdxs nodes p.2).length := by
  unfold pairEdges
  rw [List.length_flatMap]
  have h1 : (List.map (List.length ∘ fun i =>
        (matchIdxs nodes p.2).map (fun j => (⟨i, j, rel⟩ : Edge))) (matchIdxs nodes p.1))
      = (matchIdxs nodes p.1).map (fun _ => (matchIdxs nodes p.2).length) := by
    apply List.map_congr_left
    intro i _
    simp
  rw [h1, sum_map_const_nat]

theorem load_edges_edges_length (st : Store) (rows : List EdgeRec) :
    (load_edges st rows).1.edges.length
      = st.edges.length + (rows.map (materializedFor st.nodes)).sum := by
  rw [load_edges_fst]
  show (st.edges ++ _).length = _
  rw [List.length_append]
  congr 1
  rw [List.length_flatMap]
  unfold edgeGroups
  rw [List.map_map]
  have h1 : ∀ m ∈ metaKeys rows,
      ((List.length ∘ fun g : String × List (String × String) =>
          g.2.flatMap (pairEdges st.nodes (parseMetaedge g.1)))
        ∘ fun m => (m, (rows.filter (fun r => r.metaedge == m)).map
            (fun r => (r.source, r.target)))) m
      = ((rows.filter (fun r => r.metaedge == m)).map (materializedFor st.nodes)).sum := by
    intro m _
    show (((rows.filter (fun r => r.metaedge == m)).map
        (fun r => (r.source, r.target))).flatMap (pairEdges st.nodes (parseMetaedge m))).length
      = _
    rw [List.length_flatMap, List.map_map]
    apply congrArg List.sum
    apply List.map_congr_left
    intro r _
    show (List.length ∘ pairEdges st.nodes (parseMetaedge m)) (r.source, r.target) = _
    show (pairEdges st.nodes (parseMetaedge m) (r.source, r.target)).length = _
    rw [pairEdges_length]
    rfl
  rw [List.map_congr_left h1]
  apply sum_over_keys (fun r : EdgeRec => r.metaedge) (materializedFor st.nodes) rows
    (metaKeys rows) (nodup_dedupKeepFirst _)
  intro a ha
  unfold metaKeys
  rw [mem_dedupKeepFirst]
  exact List.mem_map.mpr ⟨a, ha, rfl⟩

/-! ### `matchIdxs` and unique-id lemmas -/

theorem mem_matchIdxs {nodes : List Node} {s : String} {i : Nat} :
    i ∈ matchIdxs nodes s ↔ ∃ n, nodes.get? i = some n ∧ n.id = s := by
  unfold matchIdxs
  rw [List.mem_filter, List.mem_range]
  constructor
  · rintro ⟨hlt, hp⟩
    cases h : nodes.get? i with
    | none => rw [h] at hp; simp [Option.any] at hp
    | some n =>
      rw [h] at hp
      refine ⟨n, rfl, ?_⟩
      simpa [Option.any] using hp
  · rintro ⟨n, hn, hid⟩
    have hlt : i < nodes.length := by
      rcases List.get?_eq_some.mp hn with ⟨h, _⟩
      exact h
    refine ⟨hlt, ?_⟩
    rw [hn]
    simp [Option.any, hid]

theorem matchIdxs_eq_nil_iff {nodes : List Node} {s : String} :
    matchIdxs nodes s = [] ↔ ∀ n ∈ nodes, ¬ n.id = s := by
  constructor
  · intro h n hn hid
    rcases List.get_of_mem hn with ⟨⟨i, hi⟩, hget⟩
    have hmem : i ∈ matchIdxs nodes s := by
      apply mem_matchIdxs.mpr
      refine ⟨n, ?_, hid⟩
      rw [List.get?_eq_some]
      exact ⟨hi, hget⟩
    rw [h] at hmem
    cases hmem
  · intro h
    cases hm : matchIdxs nodes s with
    | nil => rfl
    | cons i t =>
      exfalso
      have hmem : i ∈ matchIdxs nodes s := by rw [hm]; exact List.mem_cons_self i t
      rcases mem_matchIdxs.mp hmem with ⟨n, hget, hid⟩
      exact h n (List.get?_mem hget) hid

theorem idx_eq_of_nodup_ids {nodes : List Node} (h : (nodes.map Node.id).Nodup)
    {i j : Nat} {ni nj : Node} (hi : nodes.get? i = some ni) (hj : nodes.get? j = some nj)
    (hid : ni.id = nj.id) : i = j := by
  have hi2 : (nodes.map Node.id)[i]? = some ni.id := by
    rw [List.getElem?_map, ← List.get?_eq_getElem?, hi]; rfl
  have hj2 : (nodes.map Node.id)[j]? = some nj.id := by
    rw [List.getElem?_map, ← List.get?_eq_getElem?, hj]; rfl
  have hlen : i < (nodes.map Node.id).length := by
    rw [List.length_map]
    rcases List.get?_eq_some.mp hi with ⟨hb, _⟩
    exact hb
  apply List.getElem?_inj hlen h
  rw [hi2, hj2, hid]

theorem matchIdxs_length_le_one {nodes : List Node}
    (h : (nodes.map Node.id).Nodup) (s : String) :
    (matchIdxs nodes s).length ≤ 1 := by
  cases hm : matchIdxs nodes s with
  | nil => simp
  | cons i t =>
    cases ht : t with
    | nil => simp
    | cons j u =>
      exfalso
      have hnd : (matchIdxs nodes s).Nodup :=
        List.Nodup.filter _ (List.nodup_range nodes.length)
      have hi : i ∈ matchIdxs nodes s := by rw [hm]; exact List.mem_cons_self i t
      have hj : j ∈ matchIdxs nodes s := by
        rw [hm, ht]
        exact List.mem_cons_of_mem i (List.mem_cons_self j u)
      rcases mem_matchIdxs.mp hi with ⟨ni, hgi, hidi⟩
      rcases mem_matchIdxs.mp hj with ⟨nj, hgj, hidj⟩
      have hij : i = j := idx_eq_of_nodup_ids h hgi hgj (hidi.trans hidj.symm)
      rw [hm, ht] at hnd
      exact (List.nodup_cons.mp hnd).1 (hij ▸ List.mem_cons_self j u)

theorem materializedFor_eq_of_nodup {nodes : List Node}
    (h : (nodes.map Node.id).Nodup) (r : EdgeRec) :
    materializedFor nodes r = if endpointMissing nodes r then 0 else 1 := by
  unfold materializedFor endpointMissing
  cases hs : (matchIdxs nodes r.source).isEmpty with
  | true =>
    rw [List.isEmpty_iff] at hs
    simp [hs]
  | false =>
    cases ht : (matchIdxs nodes r.target).isEmpty with
    | true =>
      rw [List.isEmpty_iff] at ht
      simp [ht]
    | false =>
      simp only [Bool.or_self, if_neg Bool.false_ne_true]
      rw [List.isEmpty_eq_false_iff_exists_mem] at hs ht
      have h1 : (matchIdxs nodes r.source).length = 1 := by
        rcases hs with ⟨x, hx⟩
        have := matchIdxs_length_le_one h r.source
        have hpos : 0 < (matchIdxs nodes r.source).length := List.length_pos_of_mem hx
        omega
      have h2 : (matchIdxs nodes r.target).length = 1 := by
        rcases ht with ⟨x, hx⟩
        have := matchIdxs_length_le_one h r.target
        have hpos : 0 < (matchIdxs nodes r.target).length := List.length_pos_of_mem hx
        omega
      rw [h1, h2]

theorem countP_lt_length_iff {α : Type} (l : List α) (p : α → Bool) :
    l.countP p < l.length ↔ ∃ a ∈ l, p a = false := by
  induction l with
  | nil => simp
  | cons a l ih =>
    rw [List.countP_cons, List.length_cons]
    by_cases h : p a
    · simp only [h, if_pos]
      rw [Nat.add_lt_add_iff_right, ih]
      constructor
      · rintro ⟨x, hx, hpx⟩
        exact ⟨x, List.mem_cons_of_mem a hx, hpx⟩
      · rintro ⟨x, hx, hpx⟩
        rcases List.mem_cons.mp hx with rfl | hx2
        · rw [h] at hpx; cases hpx
        · exact ⟨x, hx2, hpx⟩
    · simp only [if_neg h, Nat.add_zero]
      have hle := @List.countP_le_length _ p l
      constructor
      · intro _
        exact ⟨a, List.mem_cons_self a l, Bool.of_not_eq_true h⟩
      · intro _
        omega

theorem sum_materialized_eq_countP {nodes : List Node}
    (h : (nodes.map Node.id).Nodup) (rows : List EdgeRec) :
    (rows.map (materializedFor nodes)).sum
      = rows.countP (fun r => !(endpointMissing nodes r)) := by
  rw [countP_eq_sum_map]
  congr 1
  apply List.map_congr_left
  intro r _
  rw [materializedFor_eq_of_nodup h r]
  cases hm : endpointMissing nodes r <;> simp

theorem createIndex_noop (st : Store) (k : String) (h : k ∈ st.indexes) :
    createIndex st k = st := by
  unfold createIndex
  rw [if_pos h]

theorem mem_createIndex_self (st : Store) (k : String) :
    k ∈ (createIndex st k).indexes := by
  rw [mem_createIndex_indexes]
  exact Or.inr rfl

/-! ### Claim theorems: ingestion (C3, C6, C7, C8, C9) and TypeRegistry (C4) -/

/-- C7: Loading a list of N node records all of one kind adds exactly N
nodes of that kind to the store (`CREATE` materializes every record), and
the resulting count does not depend on the order in which the records are
submitted. -/
theorem C7_load_nodes_kind_count (st : Store) (rows : List Node) (K : String)
    (hall : ∀ r ∈ rows, r.kind = K) :
    ((load_nodes st rows).nodes.countP (fun n => n.kind == K)
        = st.nodes.countP (fun n => n.kind == K) + rows.length)
    ∧ ∀ rows' : List Node, rows.Perm rows' →
        (load_nodes st rows').nodes.countP (fun n => n.kind == K)
          = (load_nodes st rows).nodes.countP (fun n => n.kind == K) := by
  have hcount : ∀ (rs : List Node), (∀ r ∈ rs, r.kind = K) →
      (load_nodes st rs).nodes.countP (fun n => n.kind == K)
        = st.nodes.countP (fun n => n.kind == K) + rs.length := by
    intro rs hall2
    rw [load_nodes_countP]
    congr 1
    rw [List.countP_eq_length]
    intro a ha
    simpa using hall2 a ha
  refine ⟨hcount rows hall, ?_⟩
  intro rows' hp
  rw [hcount rows hall,
    hcount rows' (fun r hr => hall r (hp.mem_iff.mpr hr)), hp.length_eq]

/-- Witness for C7 at a concrete input: loading two Gene records into the
empty store yields a count of two Gene nodes. -/
theorem C7_witness :
    (load_nodes ⟨[], [], []⟩ [⟨"G1", "a", "Gene"⟩, ⟨"G2", "b", "Gene"⟩]).nodes.countP
        (fun n => n.kind == "Gene")
      = (Store.mk [] [] []).nodes.countP (fun n => n.kind == "Gene") + 2 :=
  (C7_load_nodes_kind_count ⟨[], [], []⟩ [⟨"G1", "a", "Gene"⟩, ⟨"G2", "b", "Gene"⟩]
    "Gene" (by decide)).1

/-- C6 counterexample: the claim says a duplicate-id record overwrites the
stored node; in fact `CREATE` appends a second node with the same id and the
first node survives. -/
theorem C6_counterexample :
    (load_nodes (load_nodes ⟨[], [], []⟩ [⟨"X", "first", "Gene"⟩])
        [⟨"X", "second", "Gene"⟩]).nodes.countP (fun n => n.id == "X") = 2
    ∧ (⟨"X", "first", "Gene"⟩ : Node)
        ∈ (load_nodes (load_nodes ⟨[], [], []⟩ [⟨"X", "first", "Gene"⟩])
            [⟨"X", "second", "Gene"⟩]).nodes := by
  constructor
  · decide
  · decide

/-- C6 amended: node ids are not unique and nothing is overwritten — loading
appends; the stored count for any id grows by the number of submitted
records with that id, and every previously stored node is still present
afterwards. -/
theorem C6_amended_append_semantics :
    (∀ (st : Store) (rows : List Node) (x : String),
      (load_nodes st rows).nodes.countP (fun n => n.id == x)
        = st.nodes.countP (fun n => n.id == x) + rows.countP (fun n => n.id == x))
    ∧ ∀ (st : Store) (rows : List Node) (n : Node),
        n ∈ st.nodes → n ∈ (load_nodes st rows).nodes := by
  constructor
  · intro st rows x
    exact load_nodes_countP st rows _
  · intro st rows n hn
    rw [load_nodes_nodes]
    exact List.mem_append.mpr (Or.inl hn)

/-- Witness for C6's amended statement at a concrete input. -/
theorem C6_amended_witness :
    (load_nodes ⟨[⟨"X", "first", "Gene"⟩], [], []⟩ [⟨"X", "second", "Gene"⟩]).nodes.countP
        (fun n => n.id == "X") = 1 + 1
    ∧ (⟨"X", "first", "Gene"⟩ : Node)
        ∈ (load_nodes ⟨[⟨"X", "first", "Gene"⟩], [], []⟩ [⟨"X", "second", "Gene"⟩]).nodes :=
  ⟨C6_amended_append_semantics.1 ⟨[⟨"X", "first", "Gene"⟩], [], []⟩
      [⟨"X", "second", "Gene"⟩] "X",
   C6_amended_append_semantics.2 ⟨[⟨"X", "first", "Gene"⟩], [], []⟩
      [⟨"X", "second", "Gene"⟩] ⟨"X", "first", "Gene"⟩ (by decide)⟩

/-- C9 counterexample: loading a record whose kind `Symptom` is observed
creates no index for `Symptom`; the index calls are exactly the fixed four
kinds, independent of the observed kinds. -/
theorem C9_counterexample :
    (⟨"s1", "sym", "Symptom"⟩ : Node).kind = "Symptom"
    ∧ (load_nodes ⟨[], [], []⟩ [⟨"s1", "sym", "Symptom"⟩]).indexes = fixedIndexKinds
    ∧ ¬ ("Symptom" ∈ (load_nodes ⟨[], [], []⟩ [⟨"s1", "sym", "Symptom"⟩]).indexes) := by
  refine ⟨rfl, by decide, by decide⟩

/-- C9 amended: `load_nodes` issues `createIndex` for the fixed kinds Gene,
Compound, Disease, Anatomy — regardless of the kinds observed among the
records — and `createIndex` is idempotent (a no-op when the index already
exists). -/
theorem C9_amended_fixed_indexes :
    (∀ (st : Store) (rows : List Node) (k : String),
      k ∈ (load_nodes st rows).indexes ↔ k ∈ st.indexes ∨ k ∈ fixedIndexKinds)
    ∧ (∀ (st : Store) (k : String), k ∈ st.indexes → createIndex st k = st)
    ∧ (∀ (st : Store) (k : String),
        createIndex (createIndex st k) k = createIndex st k) := by
  refine ⟨load_nodes_indexes_mem, createIndex_noop, ?_⟩
  intro st k
  exact createIndex_noop _ k (mem_createIndex_self st k)

/-- Witness for C9's amended statement at concrete inputs. -/
theorem C9_amended_witness :
    ("Disease" ∈ (load_nodes ⟨[], [], []⟩ []).indexes
        ↔ "Disease" ∈ ([] : List String) ∨ "Disease" ∈ fixedIndexKinds)
    ∧ createIndex ⟨[], [], ["Gene"]⟩ "Gene" = ⟨[], [], ["Gene"]⟩ :=
  ⟨C9_amended_fixed_indexes.1 ⟨[], [], []⟩ [] "Disease",
   C9_amended_fixed_indexes.2.1 ⟨[], [], ["Gene"]⟩ "Gene" (by decide)⟩

/-- C8: for every metaedge group, `load_edges` reports the group's submitted
pair count (paired with the canonicalized relationship type) as "created",
and there are inputs where the actually materialized count is strictly
lower (here: endpoints absent, zero edges materialized, count 1
reported). -/
theorem C8_reported_input_counts :
    (∀ (st : Store) (rows : List EdgeRec),
      (load_edges st rows).2
        = (metaKeys rows).map
            (fun m => (parseMetaedge m,
              (rows.filter (fun r => r.metaedge == m)).length)))
    ∧ (load_edges ⟨[], [], []⟩ [⟨"A", "B", "CtD"⟩]).2 = [("TREATS", 1)]
    ∧ (load_edges ⟨[], [], []⟩ [⟨"A", "B", "CtD"⟩]).1.edges.length = 0 := by
  refine ⟨?_, by decide, by decide⟩
  intro st rows
  rw [load_edges_snd]
  unfold edgeGroups
  rw [List.map_map]
  apply List.map_congr_left
  intro m _
  simp

/-- C3 counterexample: with two loaded nodes sharing id `A`, the single
submitted record `(A, B)` — whose endpoints are both present — materializes
two edges, so the materialized count exceeds the submitted count, refuting
"materialized ≤ submitted, strict exactly on missing endpoints". -/
theorem C3_counterexample :
    endpointMissing dupIdStore.nodes ⟨"A", "B", "GiG"⟩ = false
    ∧ (load_edges dupIdStore [⟨"A", "B", "GiG"⟩]).1.edges.length = 2
    ∧ ¬ ((load_edges dupIdStore [⟨"A", "B", "GiG"⟩]).1.edges.length
          ≤ ([⟨"A", "B", "GiG"⟩] : List EdgeRec).length) := by
  refine ⟨by decide, by decide, by decide⟩

/-- C3 amended: a record with a missing endpoint always materializes zero
edges and loading never fails; the total edge growth is the sum of the
per-record match products; and provided node ids are unique in the store,
the materialized total is at most the submitted count, strictly less
exactly when some record has a missing endpoint.  (With duplicated node
ids, a single record can materialize several edges.) -/
theorem C3_amended_edge_accounting (st : Store) (rows : List EdgeRec) :
    (∀ r : EdgeRec, endpointMissing st.nodes r = true → materializedFor st.nodes r = 0)
    ∧ ((load_edges st rows).1.edges.length
        = st.edges.length + (rows.map (materializedFor st.nodes)).sum)
    ∧ ((st.nodes.map Node.id).Nodup →
        (rows.map (materializedFor st.nodes)).sum ≤ rows.length
        ∧ ((rows.map (materializedFor st.nodes)).sum < rows.length
            ↔ ∃ r ∈ rows, endpointMissing st.nodes r = true)) := by
  refine ⟨?_, load_edges_edges_length st rows, ?_⟩
  · intro r hmiss
    unfold materializedFor
    unfold endpointMissing at hmiss
    rcases Bool.or_eq_true_iff.mp hmiss with h | h
    · rw [List.isEmpty_iff] at h
      rw [h]
      simp
    · rw [List.isEmpty_iff] at h
      rw [h]
      simp
  · intro hnd
    rw [sum_materialized_eq_countP hnd]
    refine ⟨List.countP_le_length _, ?_⟩
    rw [countP_lt_length_iff]
    constructor
    · rintro ⟨r, hr, hpr⟩
      refine ⟨r, hr, ?_⟩
      simpa using hpr
    · rintro ⟨r, hr, hpr⟩
      refine ⟨r, hr, ?_⟩
      simpa using hpr

/-- Witness for C3's amended statement: against two uniquely-identified
nodes, the record `(A, C)` has a missing endpoint and materializes zero
edges, and the two submitted records materialize at most two edges. -/
theorem C3_amended_witness :
    materializedFor exampleStore3.nodes ⟨"A", "C", "GiG"⟩ = 0
    ∧ (exampleEdgeRows3.map (materializedFor exampleStore3.nodes)).sum
        ≤ exampleEdgeRows3.length :=
  ⟨(C3_amended_edge_accounting exampleStore3 exampleEdgeRows3).1 ⟨"A", "C", "GiG"⟩
      (by decide),
   ((C3_amended_edge_accounting exampleStore3 exampleEdgeRows3).2.2 (by decide)).1⟩

/-- C4: `_parse_metaedge` is a total deterministic function of the code: it
strips the direction markers, maps stripped codes found in the fixed table
to their canonical types (including the claim's examples), and maps any
other code to the uppercased stripped code with residual markers replaced
by underscore — it never fails. -/
theorem C4_canonicalize :
    (∀ code : String, metaedgeTable.lookup (stripMarkers code) = none →
        parseMetaedge code = replaceMarkersUnderscore (upperStr (stripMarkers code)))
    ∧ (∀ (code v : String), metaedgeTable.lookup (stripMarkers code) = some v →
        parseMetaedge code = v)
    ∧ parseMetaedge "CtD" = "TREATS"
    ∧ parseMetaedge "DaG" = "ASSOCIATES"
    ∧ parseMetaedge "DlA" = "LOCALIZES_TO"
    ∧ parseMetaedge "CuG" = "UPREGULATES"
    ∧ parseMetaedge "DuG" = "UPREGULATES"
    ∧ parseMetaedge "AuG" = "UPREGULATES"
    ∧ parseMetaedge "CdG" = "DOWNREGULATES"
    ∧ parseMetaedge "DdG" = "DOWNREGULATES"
    ∧ parseMetaedge "AdG" = "DOWNREGULATES"
    ∧ parseMetaedge "Gr>G" = "REGULATES"
    ∧ parseMetaedge "Xy>Zw" = "XYZW" := by
  refine ⟨?_, ?_, rfl, rfl, rfl, rfl, rfl, rfl, rfl, rfl, rfl, rfl, rfl⟩
  · intro code h
    simp only [parseMetaedge, h]
  · intro code v h
    simp only [parseMetaedge, h]

/-- Witness for C4 at concrete inputs: an unknown code takes the fallback
and a known code takes its table entry. -/
theorem C4_witness :
    parseMetaedge "XqJ" = replaceMarkersUnderscore (upperStr (stripMarkers "XqJ"))
    ∧ parseMetaedge "CpD" = "PALLIATES" :=
  ⟨C4_canonicalize.1 "XqJ" (by decide),
   C4_canonicalize.2.1 "CpD" "PALLIATES" (by decide)⟩

/-! ### Claim theorems: queries and cache (C1, C5, C10) -/

/-- C10: when the disease id resolves to no disease node, or to diseases
with no `LOCALIZES_TO` anatomy, Query 2 returns count 0 and an empty
treatments list without error; both cases produce the identical result, so
they are not distinguished. -/
theorem C10_no_anatomy_empty_result (st : Store) (did : String)
    (h : ∀ i ∈ idxsOf st "Disease" did, localizesTargets st i = []) :
    query2_find_treatments st did = ⟨did, 0, []⟩ := by
  have hrows : q2Rows st did = [] := by
    unfold q2Rows
    rw [List.flatMap_eq_nil_iff]
    intro dIdx hd
    rw [h dIdx hd]
    rfl
  unfold query2_find_treatments
  rw [hrows]
  rfl

/-- Witness for C10: a disease node with no anatomical sites yields the
empty result. -/
theorem C10_witness :
    query2_find_treatments ⟨[⟨"D2", "NoSite", "Disease"⟩], [], []⟩ "D2"
      = ⟨"D2", 0, []⟩ :=
  C10_no_anatomy_empty_result ⟨[⟨"D2", "NoSite", "Disease"⟩], [], []⟩ "D2" (by decide)

/-- C5 (code bug): on a disease id that resolves to no disease node the
cache branch returns the not-found value, but the direct branch's
`.single()` yields no record and `neo_result['disease_name']` fails, so the
direct mode errors instead of reporting not-found. -/
theorem C5_direct_mode_error_on_missing :
    query1_direct ⟨[], [], []⟩ "Disease::DOID:999"
        = Except.error "NoneType is not subscriptable"
    ∧ query1_cached (build_mongo_cache ⟨[], [], []⟩) "Disease::DOID:999" = none := by
  exact ⟨rfl, rfl⟩

theorem getDiseaseInfo_isSome_of_mem {st : Store} {did : String}
    (h : ∃ n ∈ st.nodes, n.kind = "Disease" ∧ n.id = did) :
    ∃ info, getDiseaseInfo st did = some info := by
  rcases h with ⟨n, hn, hkind, hid⟩
  rcases List.get_of_mem hn with ⟨⟨i, hi⟩, hget⟩
  have hmem : i ∈ idxsOf st "Disease" did := by
    unfold idxsOf
    rw [List.mem_filter, List.mem_range]
    refine ⟨hi, ?_⟩
    have hsome : st.nodes.get? i = some n := by
      rw [List.get?_eq_some]
      exact ⟨hi, hget⟩
    rw [hsome]
    simp [Option.any, hkind, hid]
  cases hidx : idxsOf st "Disease" did with
  | nil => rw [hidx] at hmem; cases hmem
  | cons a t =>
    unfold getDiseaseInfo
    rw [hidx]
    exact ⟨_, rfl⟩

theorem lookup_upsert (c : List (String × DiseaseInfo)) (k : String) (v : DiseaseInfo) :
    ∀ q : String,
      List.lookup q (upsert c k v) = if q == k then some v else List.lookup q c := by
  induction c with
  | nil =>
    intro q
    unfold upsert
    simp only [List.lookup]
    cases hq : q == k with
    | false => simp [beq_eq_false_iff_ne.mp hq]
    | true => simp [eq_of_beq hq]
  | cons p rest ih =>
    intro q
    rcases p with ⟨k1, v1⟩
    unfold upsert
    by_cases h : (k1 == k) = true
    · have hk : k1 = k := eq_of_beq h
      subst hk
      rw [if_pos h]
      simp only [List.lookup]
      cases hq : q == k1 <;> simp [hq]
    · rw [if_neg h]
      simp only [List.lookup]
      cases hq1 : q == k1 with
      | false => simp [ih]
      | true =>
        have hqk : (q == k) = false := by
          have h1 : q = k1 := eq_of_beq hq1
          have h2 : ¬ (k1 = k) := fun hh => h (beq_iff_eq.mpr hh)
          exact beq_eq_false_iff_ne.mpr (fun hh => h2 (h1 ▸ hh))
        simp [hqk]

theorem lookup_build_cache (st : Store) :
    ∀ (l : List Node) (c : List (String × DiseaseInfo)),
      (∀ n ∈ l, n ∈ st.nodes ∧ n.kind = "Disease") →
      ∀ q : String,
        List.lookup q (l.foldl (fun cache n =>
            match getDiseaseInfo st n.id with
            | some info => upsert cache n.id info
            | none => cache) c)
          = if q ∈ l.map (fun n => n.id) then getDiseaseInfo st q
            else List.lookup q c := by
  intro l
  induction l with
  | nil =>
    intro c _ q
    simp
  | cons n l ih =>
    intro c hall q
    rw [List.foldl_cons]
    have hn := hall n (List.mem_cons_self n l)
    rcases @getDiseaseInfo_isSome_of_mem st n.id ⟨n, hn.1, hn.2, rfl⟩
      with ⟨info, hinfo⟩
    rw [hinfo, ih _ (fun m hm => hall m (List.mem_cons_of_mem n hm)) q, lookup_upsert]
    by_cases h1 : q ∈ l.map (fun n => n.id)
    · simp [h1]
    · by_cases h2 : (q == n.id) = true
      · have hq : q = n.id := eq_of_beq h2
        subst hq
        simp [h1, hinfo]
      · have hne : ¬ q = n.id := fun hh => h2 (beq_iff_eq.mpr hh)
        simp [h1, h2, hne]

/-- C1: for every disease id with a disease node present in the store the
cache was rebuilt from, the cached read (`use_cache=True` over the rebuilt
cache) and the direct read (`use_cache=False`) return the identical
base-field document — name, drugs, genes and locations — since both are the
shared disease-info computation and the rebuild stores exactly its output.
The ephemeral `query_time_ms`/`data_source` fields are attached after this
content and are excluded. -/
theorem C1_cache_direct_agree (st : Store) (did : String)
    (h : ∃ n ∈ st.nodes, n.kind = "Disease" ∧ n.id = did) :
    ∃ info, getDiseaseInfo st did = some info
      ∧ query1_cached (build_mongo_cache st) did = some info
      ∧ query1_direct st did = Except.ok info := by
  rcases getDiseaseInfo_isSome_of_mem h with ⟨info, hinfo⟩
  refine ⟨info, hinfo, ?_, ?_⟩
  · have hall : ∀ n ∈ diseaseNodes st, n ∈ st.nodes ∧ n.kind = "Disease" := by
      intro n hn
      have hf := List.mem_filter.mp hn
      exact ⟨hf.1, by simpa using hf.2⟩
    unfold query1_cached build_mongo_cache
    rw [lookup_build_cache st (diseaseNodes st) [] hall did]
    have hdid : did ∈ (diseaseNodes st).map (fun n => n.id) := by
      rcases h with ⟨n, hn, hkind, hid⟩
      apply List.mem_map.mpr
      refine ⟨n, List.mem_filter.mpr ⟨hn, by simp [hkind]⟩, hid⟩
    rw [if_pos hdid, hinfo]
  · unfold query1_direct
    rw [hinfo]

/-- Witness for C1 on the walkthrough scenario store. -/
theorem C1_witness :
    ∃ info, getDiseaseInfo exampleStore1 "D1" = some info
      ∧ query1_cached (build_mongo_cache exampleStore1) "D1" = some info
      ∧ query1_direct exampleStore1 "D1" = Except.ok info :=
  C1_cache_direct_agree exampleStore1 "D1" (by decide)

/-! ### Claim theorem: inference query (C2) -/

/-- C2 (code bug): by Cypher precedence the `NOT (c)-[:TREATS|PALLIATES]->(d)`
conjunct guards only the compound-downregulates disjunct of the `WHERE`
clause, so a compound that treats the disease is still returned whenever it
upregulates a gene that a disease anatomy downregulates — against the query
comment `// Exclude existing treatments` and the spec.  On the spec's own
inference scenario the query behaves as claimed (`C2` returned, `C1` with
only a `TREATS` edge absent), but on `precedenceBugStore` the treating
compound `C1` is returned even though its `TREATS` edge to `D1` exists; node
ids there are unique, so no duplicate-id effect is involved. -/
theorem C2_precedence_bug :
    ((query2_find_treatments exampleStore2 "D1").treatments
        = [⟨"C2", "DrugB", [⟨"GeneA", "UPREGULATES", "Lung", "DOWNREGULATES"⟩]⟩])
    ∧ ((query2_find_treatments precedenceBugStore "D1").treatments
        = [⟨"C1", "DrugA", [⟨"GeneA", "UPREGULATES", "Lung", "DOWNREGULATES"⟩]⟩])
    ∧ hasTreatsOrPalliatesById precedenceBugStore "C1" "D1" = true
    ∧ (precedenceBugStore.nodes.map Node.id).Nodup := by
  refine ⟨by decide, by decide, by decide, by decide⟩
